import Mathlib

/-!
A verification development for the College-Chatbot Flask application
(src/app.py).  The matching/ranking engine, the response selector, the
document-ingestion pipeline and the admin knowledge-store mutations are
embedded shallowly:

* Python strings become `List Char`; `str.lower` is modelled on ASCII
  letters (the only ones the repository's data and the regex class
  `[a-zA-Z0-9]` treat specially).
* Python sets of tokens become `Finset (List Char)`.
* The nondeterministic `random.choice` becomes an explicit index
  parameter `pick`, reduced modulo the pool size.
* The conversation-history side effect of `get_response` is dropped
  (no claim mentions it); the function returns the reply text.
* Python's reference semantics for dicts (needed by the update
  endpoint, which mutates entries shared between the old and the
  copied list) is modelled by a heap of entries plus lists of
  references into it.
-/

set_option maxRecDepth 200000

namespace CollegeBot

/-- ASCII model of Python `str.lower`, applied characterwise. -/
def lowerChar (c : Char) : Char :=
  if 65 ≤ c.toNat ∧ c.toNat ≤ 90 then Char.ofNat (c.toNat + 32) else c

/-- Python `str.lower` on a whole string. -/
def lowerStr (s : List Char) : List Char := s.map lowerChar

/-- The regex character class `[a-zA-Z0-9]` used by both tokenizers. -/
def isAlnumChar (c : Char) : Bool :=
  (65 ≤ c.toNat && c.toNat ≤ 90) || (97 ≤ c.toNat && c.toNat ≤ 122) ||
    (48 ≤ c.toNat && c.toNat ≤ 57)

/-- ASCII model of Python's whitespace class, as used by `str.strip` and `\s`. -/
def isPySpace (c : Char) : Bool :=
  c == ' ' || c == '\t' || c == '\n' || c == '\x0d' || c.toNat == 11 || c.toNat == 12

/-- Python `str.strip()`: whitespace removed from both ends. -/
def pyStrip (s : List Char) : List Char :=
  ((s.dropWhile isPySpace).reverse.dropWhile isPySpace).reverse

/-- Whether `needle` is a prefix of `hay` (helper for the substring test). -/
def listStarts : List Char → List Char → Bool
  | [], _ => true
  | _ :: _, [] => false
  | a :: as, b :: bs => (a == b) && listStarts as bs

/-- Python `needle in hay` on strings: `needle` occurs as a contiguous
substring of `hay` (true for the empty needle, as in Python). -/
def isSub (needle : List Char) : List Char → Bool
  | [] => listStarts needle []
  | h :: t => listStarts needle (h :: t) || isSub needle t

/-- The scan behind `re.findall("[a-zA-Z0-9]+", s)`: collect the maximal
alphanumeric runs of `s`, in order.  `acc` holds the current run, reversed. -/
def tokensAux (acc : List Char) : List Char → List (List Char)
  | [] => if acc.isEmpty then [] else [acc.reverse]
  | c :: cs =>
    if isAlnumChar c then tokensAux (c :: acc) cs
    else if acc.isEmpty then tokensAux [] cs
    else acc.reverse :: tokensAux [] cs

/-- `re.findall("[a-zA-Z0-9]+", s)`. -/
def findTokens (s : List Char) : List (List Char) := tokensAux [] s

/-- The stopword set of `CollegeAI.__init__` (app.py line 78), in source order. -/
def stopwords : List (List Char) :=
  ["the".data, "a".data, "an".data, "and".data, "or".data, "but".data, "if".data,
   "then".data, "else".data, "on".data, "in".data, "at".data, "for".data, "to".data,
   "from".data, "by".data, "with".data, "of".data, "is".data, "are".data, "was".data,
   "were".data, "be".data, "been".data, "it".data, "this".data, "that".data,
   "these".data, "those".data, "as".data, "about".data, "into".data, "over".data,
   "under".data, "after".data, "before".data, "between".data, "how".data, "what".data,
   "when".data, "where".data, "which".data, "who".data, "whom".data, "why".data,
   "can".data, "do".data, "does".data, "did".data, "will".data, "would".data,
   "should".data, "could".data, "may".data, "might".data, "you".data, "your".data,
   "yours".data, "we".data, "our".data, "ours".data, "they".data, "their".data,
   "theirs".data, "i".data, "me".data, "my".data, "mine".data]

/-- `CollegeAI._tokenize`: alphanumeric tokens of the lowercased text,
empty tokens and stopwords dropped (app.py lines 495-498). -/
def tokenizeQ (text : List Char) : List (List Char) :=
  (findTokens (lowerStr text)).filter (fun t => !t.isEmpty && !stopwords.contains t)

/-- An admin knowledge entry, with the fields the matching engine reads
(`created_at` and `source_pdf` carry no logic and are omitted). -/
structure Entry where
  id : List Char
  title : List Char
  keywords : List (List Char)
  responses : List (List Char)
deriving DecidableEq

/-- A built-in category of `_load_knowledge_base` (dict key plus value). -/
structure Category where
  name : List Char
  keywords : List (List Char)
  responses : List (List Char)
deriving DecidableEq

/-- The separator `" \n "` used to join the first two responses. -/
def sampleSep : List Char := (" \n ").data

/-- Python `sep.join(l)`. -/
def joinSep (sep : List Char) : List (List Char) → List Char
  | [] => []
  | [x] => x
  | x :: y :: ys => x ++ sep ++ joinSep sep (y :: ys)

/-- `CollegeAI._score_entry_match` (app.py lines 500-519), line for line:
keyword substring hits are worth 3 each, then three capped token-overlap
signals are added. -/
def score_entry_match (msgLower : List Char) (userTokens : Finset (List Char))
    (e : Entry) : Nat :=
  let keywordHits := (e.keywords.filter (fun k => !k.isEmpty && isSub k msgLower)).length
  let s1 := keywordHits * 3
  let keywordTokens := e.keywords.foldl (fun acc k => acc ∪ (tokenizeQ k).toFinset) ∅
  let s2 := s1 + min (userTokens ∩ keywordTokens).card 4
  let titleTokens := (tokenizeQ e.title).toFinset
  let s3 := s2 + min (userTokens ∩ titleTokens).card 2
  let respTokens := (tokenizeQ (joinSep sampleSep (e.responses.take 2))).toFinset
  s3 + min (userTokens ∩ respTokens).card 5

/-- The built-in tier's simplified scorer (app.py line 557): the raw count
of keywords occurring as substrings of the lowercased message. -/
def builtinScore (msgLower : List Char) (kws : List (List Char)) : Nat :=
  (kws.filter (fun k => isSub k msgLower)).length

/-- The selection loop shared by both tiers (app.py lines 535-539 and
556-560): running best entry and best score, updated on strict `>`. -/
def bestByAux (f : α → Nat) : List α → Option α → Nat → Option α × Nat
  | [], best, bs => (best, bs)
  | x :: xs, best, bs =>
    if bs < f x then bestByAux f xs (some x) (f x) else bestByAux f xs best bs

/-- The ranker: run the loop from `(None, 0)`. -/
def bestBy (f : α → Nat) (l : List α) : Option α × Nat := bestByAux f l none 0

/-- `random.choice`, with the random draw exposed as the index `pick`. -/
def choice (pool : List (List Char)) (pick : Nat) : List Char :=
  pool.getD (pick % pool.length) []

/-- The literal follow-up suffix of the personalization rule. -/
def followUpSuffix : List Char :=
  ("\n\nIs there anything else you'd like to know?").data

/-- The admin-tier score of `msg` against `e`, with the lowered message and
the query token set computed as in `get_response` lines 523-524. -/
def adminScore (msg : List Char) (e : Entry) : Nat :=
  score_entry_match (lowerStr msg) (tokenizeQ msg).toFinset e

/-- The built-in score of a whole category against `msg`. -/
def builtinCatScore (msg : List Char) (c : Category) : Nat :=
  builtinScore (lowerStr msg) c.keywords

/-- default_responses[0] of CollegeAI._get_default_response. -/
def defaultResp0 : List Char :=
  ("Thank you for your question! I'm here to help with college-related inquiries.\n\nI can assist with:\n• Admission requirements and applications\n• Course information and academic programs\n• Financial aid and scholarships\n• Campus services and facilities\n• Student life and activities\n• Technical support\n• Academic calendar and deadlines\n\nCould you please rephrase your question or ask about something specific? I want to make sure I provide you with the most helpful information.").data

/-- default_responses[1] of CollegeAI._get_default_response. -/
def defaultResp1 : List Char :=
  ("I appreciate your question! While I'm designed to help with college-related topics, I want to make sure I understand exactly what you need.\n\nTry asking about:\n• How to apply to college\n• What courses are available\n• How much does college cost\n• What services are available on campus\n• When are important deadlines\n\nOr feel free to ask your question in a different way!").data

/-- default_responses[2] of CollegeAI._get_default_response. -/
def defaultResp2 : List Char :=
  ("I'm here to help with college questions! Sometimes I need a bit more context to provide the best answer.\n\nYou can ask me about:\n• Academic programs and requirements\n• Financial aid and costs\n• Campus life and activities\n• Student services and support\n• Important dates and deadlines\n\nWhat would you like to know more about?").data

/-- The fixed pool of CollegeAI._get_default_response. -/
def default_responses : List (List Char) := [defaultResp0, defaultResp1, defaultResp2]

/-- knowledge_base.admission.responses[0]. -/
def kbAdmissionR0 : List Char :=
  ("Here are the general admission requirements for our college:\n\n• High school diploma or equivalent (GED)\n• Completed application form with $50 application fee\n• Official high school transcripts\n• SAT or ACT scores (recommended)\n• Personal statement or essay\n• Letters of recommendation (2 required)\n• Application deadline: March 1st for Fall semester\n\nFor specific programs, additional requirements may apply. Would you like me to provide details about a particular major or program?").data

/-- knowledge_base.admission.responses[1]. -/
def kbAdmissionR1 : List Char :=
  ("To apply to our college, you'll need:\n\n**Required Documents:**\n• Application form (online or paper)\n• $50 non-refundable application fee\n• High school transcripts\n• Standardized test scores\n\n**Recommended:**\n• Personal essay (500-750 words)\n• Letters of recommendation\n• Resume of activities\n\nThe application process typically takes 4-6 weeks for review.").data

/-- The built-in category admission of CollegeAI._load_knowledge_base. -/
def kbAdmission : Category :=
  { name := ("admission").data,
    keywords := ["admission".data, "requirements".data, "apply".data, "application".data, "enroll".data, "enrollment".data],
    responses := [kbAdmissionR0, kbAdmissionR1] }

/-- knowledge_base.courses.responses[0]. -/
def kbCoursesR0 : List Char :=
  ("We offer a wide range of courses across various disciplines:\n\n**Arts & Humanities:**\n• English Literature, Creative Writing, History, Philosophy, Art History\n\n**Business & Economics:**\n• Business Administration, Marketing, Finance, Economics, Entrepreneurship\n\n**Science & Technology:**\n• Computer Science, Biology, Chemistry, Physics, Mathematics, Engineering\n\n**Social Sciences:**\n• Psychology, Sociology, Political Science, Anthropology, Education\n\n**Health Sciences:**\n• Nursing, Public Health, Nutrition, Exercise Science\n\nEach major has specific course requirements and electives. What field interests you most?").data

/-- knowledge_base.courses.responses[1]. -/
def kbCoursesR1 : List Char :=
  ("Our academic programs are designed to provide comprehensive education:\n\n**Undergraduate Programs:**\n• Bachelor of Arts (BA)\n• Bachelor of Science (BS)\n• Bachelor of Business Administration (BBA)\n\n**Graduate Programs:**\n• Master of Arts (MA)\n• Master of Science (MS)\n• Master of Business Administration (MBA)\n\n**Special Features:**\n• Honors Program\n• Study Abroad opportunities\n• Internship programs\n• Research opportunities").data

/-- The built-in category courses of CollegeAI._load_knowledge_base. -/
def kbCourses : Category :=
  { name := ("courses").data,
    keywords := ["course".data, "class".data, "major".data, "program".data, "curriculum".data, "syllabus".data],
    responses := [kbCoursesR0, kbCoursesR1] }

/-- knowledge_base.financial_aid.responses[0]. -/
def kbFinancialAidR0 : List Char :=
  ("We're committed to making education affordable! Here's information about financial aid:\n\n**Tuition & Fees:**\n• Full-time tuition: $12,500 per semester\n• Room & board: $8,000 per semester\n• Books & supplies: ~$1,200 per semester\n\n**Financial Aid Options:**\n• Federal Pell Grants (up to $6,895/year)\n• Federal Direct Loans\n• Work-study programs\n• Institutional scholarships\n• State grants\n\n**Application Process:**\n1. Complete FAFSA (Free Application for Federal Student Aid)\n2. Submit by March 1st priority deadline\n3. Review your financial aid package\n4. Accept/decline offers\n\nOur financial aid office can help you explore all options. Would you like me to connect you with them?").data

/-- knowledge_base.financial_aid.responses[1]. -/
def kbFinancialAidR1 : List Char :=
  ("Understanding college costs is important! Here's a breakdown:\n\n**Annual Costs (Full-time):**\n• Tuition: $25,000\n• Room & Board: $16,000\n• Books & Supplies: $2,400\n• Personal Expenses: $3,000\n• **Total: ~$46,400/year**\n\n**Ways to Reduce Costs:**\n• Apply for scholarships early\n• Consider community college for first 2 years\n• Live off-campus (may be cheaper)\n• Buy used textbooks\n• Apply for work-study positions").data

/-- The built-in category financial_aid of CollegeAI._load_knowledge_base. -/
def kbFinancialAid : Category :=
  { name := ("financial_aid").data,
    keywords := ["financial".data, "aid".data, "scholarship".data, "cost".data, "tuition".data, "fee".data, "money".data, "payment".data],
    responses := [kbFinancialAidR0, kbFinancialAidR1] }

/-- knowledge_base.library.responses[0]. -/
def kbLibraryR0 : List Char :=
  ("Our library is a great place to study! Here are the current hours:\n\n**Main Library Hours:**\n• Monday-Thursday: 7:00 AM - 11:00 PM\n• Friday: 7:00 AM - 8:00 PM\n• Saturday: 9:00 AM - 6:00 PM\n• Sunday: 12:00 PM - 11:00 PM\n\n**Special Collections:**\n• Rare Books Room: By appointment only\n• Media Center: Same as main library\n• Study Rooms: Available for 2-hour reservations\n\n**Extended Hours During Finals:**\n• Open 24/7 during final exam week\n• Coffee cart available in evenings\n\nThe library also offers online resources accessible 24/7 from anywhere!").data

/-- knowledge_base.library.responses[1]. -/
def kbLibraryR1 : List Char :=
  ("The library provides comprehensive academic support:\n\n**Physical Resources:**\n• 500,000+ books and journals\n• 50+ study rooms\n• Computer workstations\n• Printing services (100 free pages/semester)\n\n**Online Resources:**\n• E-books and databases\n• Research guides\n• Citation tools\n• 24/7 chat support\n\n**Services:**\n• Research consultations\n• Interlibrary loan\n• Course reserves\n• Technology help").data

/-- The built-in category library of CollegeAI._load_knowledge_base. -/
def kbLibrary : Category :=
  { name := ("library").data,
    keywords := ["library".data, "hours".data, "study".data, "book".data, "resource".data, "research".data],
    responses := [kbLibraryR0, kbLibraryR1] }

/-- knowledge_base.campus_services.responses[0]. -/
def kbCampusServicesR0 : List Char :=
  ("We have comprehensive campus services to support your academic and personal success:\n\n**Academic Support Services:**\n• **Writing Center** (Mon-Fri, 9 AM-5 PM, Library 2nd Floor)\n  - One-on-one writing consultations\n  - Essay and research paper assistance\n  - Citation and formatting help\n  - Online appointment booking available\n\n• **Math Lab** (Mon-Thu, 10 AM-8 PM, Science Building Room 105)\n  - Drop-in tutoring for all math levels\n  - Calculus, statistics, and algebra support\n  - Practice exams and study materials\n  - Group study sessions available\n\n**Health & Wellness Services:**\n• **Student Health Center** (Mon-Fri, 8 AM-5 PM, Wellness Building)\n• **Counseling Services** (confidential, free, 24/7 crisis hotline)\n• **Fitness Center** (6 AM-11 PM daily, Recreation Center)\n• **Recreation Center** (7 AM-12 AM daily)\n\n**Student Life Services:**\n• **Student Union** (7 AM-12 AM daily, Main Campus)\n• **Career Services** (Mon-Fri, 9 AM-5 PM, Career Center)\n• **International Student Office** (Mon-Fri, 8 AM-5 PM)\n• **Disability Services** (Mon-Fri, 8 AM-5 PM)\n\nWhat specific service would you like more information about?").data

/-- knowledge_base.campus_services.responses[1]. -/
def kbCampusServicesR1 : List Char :=
  ("Our campus is designed to meet all your needs:\n\n**Learning Spaces:**\n• Modern classrooms with smart technology\n• Collaborative study areas\n• Quiet study zones\n• Outdoor learning spaces\n\n**Wellness Facilities:**\n• Olympic-size swimming pool\n• Fitness center with personal trainers\n• Meditation garden\n• Health clinic with pharmacy\n\n**Student Support:**\n• 24/7 campus security\n• Emergency response team\n• Lost and found office\n• Information desk").data

/-- The built-in category campus_services of CollegeAI._load_knowledge_base. -/
def kbCampusServices : Category :=
  { name := ("campus_services").data,
    keywords := ["campus".data, "service".data, "facility".data, "center".data, "office".data, "help".data],
    responses := [kbCampusServicesR0, kbCampusServicesR1] }

/-- knowledge_base.student_life.responses[0]. -/
def kbStudentLifeR0 : List Char :=
  ("Campus life is vibrant and engaging! Here's everything you need to know about getting involved:\n\n**Student Organizations (100+ Active Clubs):**\n• **Academic & Professional Clubs:**\n  - Math Club (meets Wednesdays, 6 PM, Science Building)\n  - Science Society (monthly meetings, research presentations)\n  - Business Students Association (networking events, guest speakers)\n  - Pre-Med Society (MCAT prep, medical school visits)\n  - Engineering Club (robotics competitions, industry tours)\n\n**Cultural & International Organizations:**\n• International Student Association (cultural nights, language exchange)\n• Black Student Union (advocacy, cultural celebrations)\n• Latinx Student Association (heritage month events)\n• Asian Student Alliance (cultural festivals, mentorship)\n• LGBTQ+ Student Union (support groups, awareness events)\n\n**Major Campus Events & Traditions:**\n• **August:** Welcome Week (orientation, club fair, welcome concert)\n• **October:** Homecoming Week (alumni reunions, football game, parade)\n• **November:** International Education Week (cultural performances, study abroad info)\n• **February:** Black History Month (guest speakers, cultural celebrations)\n• **March:** Women's History Month (leadership conferences, career development)\n• **April:** Spring Festival (live music, food trucks, talent shows)\n\n**Recreation & Sports:**\n• Intramural sports (year-round leagues)\n• Outdoor adventure program (hiking, camping, rock climbing)\n• Fitness classes (50+ weekly options)\n• Entertainment (movie nights, karaoke, game tournaments)\n\nGetting involved is a great way to make friends and build your resume!").data

/-- knowledge_base.student_life.responses[1]. -/
def kbStudentLifeR1 : List Char :=
  ("There's never a dull moment on campus!\n\n**Weekly Activities:**\n• Monday: Movie Night\n• Tuesday: Trivia Night\n• Wednesday: Wellness Wednesday\n• Thursday: Live Music\n• Friday: Game Night\n• Weekend: Outdoor adventures\n\n**Special Programs:**\n• Leadership development workshops\n• Career networking events\n• Cultural heritage celebrations\n• Community service projects\n\n**Athletics:**\n• Varsity sports teams\n• Club sports\n• Intramural leagues\n• Fitness challenges").data

/-- The built-in category student_life of CollegeAI._load_knowledge_base. -/
def kbStudentLife : Category :=
  { name := ("student_life").data,
    keywords := ["student life".data, "club".data, "activity".data, "event".data, "organization".data, "social".data],
    responses := [kbStudentLifeR0, kbStudentLifeR1] }

/-- knowledge_base.technical_support.responses[0]. -/
def kbTechnicalSupportR0 : List Char :=
  ("Need tech help? We've got comprehensive IT support to keep you connected and productive:\n\n**IT Support Services (24/7 Availability):**\n• **Help Desk Hotline:** (555) 123-4567\n• **Email Support:** helpdesk@college.edu\n• **Live Chat:** Available on college website and student portal\n• **Walk-in Support:** Tech Support Building (Mon-Fri, 8 AM-8 PM)\n• **Emergency Support:** After-hours critical issues only\n\n**Network & WiFi Support:**\n• **WiFi Connection:** Network: 'College_Network', Username: Your student ID\n• **WiFi Coverage:** All academic buildings, residence halls, outdoor spaces\n• **Common Issues:** Restart device, check credentials, move closer to access points\n\n**Software & Applications:**\n• **Free Software:** Microsoft Office 365, Adobe Creative Suite, SPSS, MATLAB\n• **Installation:** Download from student portal, guides available, remote support\n\n**Computer Labs & Equipment:**\n• **Main Library:** 50+ Windows workstations, printing, scanning\n• **Science Building:** 30 specialized computers, scientific software\n• **Business School:** 25 financial modeling workstations, Bloomberg Terminal\n• **Arts Center:** 20 Mac workstations, Adobe Suite, video editing tools\n\nWhat specific technical issue are you experiencing? I can provide step-by-step solutions.").data

/-- knowledge_base.technical_support.responses[1]. -/
def kbTechnicalSupportR1 : List Char :=
  ("Technology is essential for modern education:\n\n**Available Software:**\n• Microsoft Office 365 (free)\n• Adobe Creative Suite\n• Statistical analysis tools\n• Programming environments\n\n**Online Platforms:**\n• Learning Management System\n• Student portal\n• Library databases\n• Career services platform\n\n**Support Channels:**\n• In-person help desk\n• Remote desktop support\n• Video tutorials\n• Knowledge base articles").data

/-- The built-in category technical_support of CollegeAI._load_knowledge_base. -/
def kbTechnicalSupport : Category :=
  { name := ("technical_support").data,
    keywords := ["technical".data, "computer".data, "software".data, "wifi".data, "internet".data, "technology".data, "it".data],
    responses := [kbTechnicalSupportR0, kbTechnicalSupportR1] }

/-- knowledge_base.academic_calendar.responses[0]. -/
def kbAcademicCalendarR0 : List Char :=
  ("Here's the comprehensive academic calendar for the 2024-2025 academic year:\n\n**Fall Semester 2024 (August 26 - December 20):**\n• **August 26** - Classes begin\n• **August 26-September 6** - Add/Drop period (100% refund)\n• **September 2** - Labor Day (no classes, campus closed)\n• **September 9-13** - Late registration period (50% refund)\n• **October 14-15** - Fall Break (no classes)\n• **October 21** - Midterm grades due\n• **November 27-29** - Thanksgiving Break (no classes, campus closed)\n• **December 16-20** - Final examinations\n• **December 20** - Fall semester ends\n\n**Spring Semester 2025 (January 13 - May 10):**\n• **January 13** - Classes begin\n• **January 13-24** - Add/Drop period (100% refund)\n• **January 20** - Martin Luther King Day (no classes)\n• **March 10-14** - Spring Break (no classes)\n• **May 5-9** - Final examinations\n• **May 10** - Spring semester ends & Commencement\n\n**Important Academic Deadlines:**\n• **Graduation Application:** Fall (July 1st), Spring (March 1st), Summer (April 1st)\n• **Financial Aid:** FAFSA priority deadline March 1st\n• **Housing:** Fall application May 1st, Spring application November 1st\n• **Registration:** Priority registration April (Fall), November (Spring)\n\nNeed specific dates for your program, major requirements, or other academic information?").data

/-- knowledge_base.academic_calendar.responses[1]. -/
def kbAcademicCalendarR1 : List Char :=
  ("Stay organized with our academic calendar:\n\n**Registration Periods:**\n• Fall registration: April 1-30\n• Spring registration: November 1-30\n• Summer registration: March 1-31\n\n**Academic Deadlines:**\n• Course withdrawal: 75% of semester\n• Grade change requests: 30 days after grades posted\n• Incomplete grade completion: Next semester\n• Academic appeal: 10 business days\n\n**Special Events:**\n• Academic advising week\n• Career fair\n• Research symposium\n• Honors convocation").data

/-- The built-in category academic_calendar of CollegeAI._load_knowledge_base. -/
def kbAcademicCalendar : Category :=
  { name := ("academic_calendar").data,
    keywords := ["calendar".data, "deadline".data, "exam".data, "break".data, "holiday".data, "schedule".data],
    responses := [kbAcademicCalendarR0, kbAcademicCalendarR1] }

/-- knowledge_base.housing.responses[0]. -/
def kbHousingR0 : List Char :=
  ("We offer excellent on-campus housing options for students:\n\n**Residence Halls:**\n• Traditional dorms: $4,500/semester\n• Suite-style: $5,200/semester\n• Apartment-style: $6,000/semester\n\n**Amenities Included:**\n• High-speed WiFi\n• Laundry facilities\n• Study lounges\n• 24/7 security\n• Meal plan options\n\n**Application Process:**\n1. Submit housing application by May 1st\n2. Pay $200 housing deposit\n3. Room selection in June\n4. Move-in day: August 24th\n\nWould you like information about specific residence halls or off-campus options?").data

/-- knowledge_base.housing.responses[1]. -/
def kbHousingR1 : List Char :=
  ("Our housing options are designed for student success:\n\n**Living Learning Communities:**\n• Honors Hall - Academic focus\n• Global Village - International students\n• STEM House - Science & engineering\n• Arts Collective - Creative students\n\n**Off-Campus Resources:**\n• Approved apartment complexes\n• Homestay programs\n• Commuter parking permits\n• Shuttle service to campus\n\n**Housing Office Contact:**\n• Phone: (555) 123-4568\n• Email: housing@college.edu\n• Office: Student Center, Room 201").data

/-- The built-in category housing of CollegeAI._load_knowledge_base. -/
def kbHousing : Category :=
  { name := ("housing").data,
    keywords := ["housing".data, "dorm".data, "residence".data, "room".data, "accommodation".data, "living".data, "apartment".data],
    responses := [kbHousingR0, kbHousingR1] }

/-- knowledge_base.parking.responses[0]. -/
def kbParkingR0 : List Char :=
  ("Here's everything you need to know about parking and transportation:\n\n**Student Parking Permits:**\n• Annual permit: $300\n• Semester permit: $180\n• Daily parking: $5/day\n\n**Parking Lots:**\n• North Campus: 500 spaces\n• South Campus: 300 spaces\n• East Campus: 200 spaces\n• Visitor parking: 50 spaces\n\n**Free Shuttle Service:**\n• Runs every 15 minutes\n• 7:00 AM - 11:00 PM daily\n• Connects all campus areas\n• Real-time tracking app available\n\n**Alternative Transportation:**\n• City bus routes (free with student ID)\n• Bike share program\n• Carpool matching service\n\nNeed help with permit application or shuttle routes?").data

/-- The built-in category parking of CollegeAI._load_knowledge_base. -/
def kbParking : Category :=
  { name := ("parking").data,
    keywords := ["parking".data, "car".data, "vehicle".data, "transportation".data, "commute".data, "shuttle".data, "bus".data],
    responses := [kbParkingR0] }

/-- The built-in tier: the categories of _load_knowledge_base in dict insertion order. -/
def knowledge_base : List Category :=
  [kbAdmission, kbCourses, kbFinancialAid, kbLibrary, kbCampusServices, kbStudentLife, kbTechnicalSupport, kbAcademicCalendar, kbHousing, kbParking]


/-- The built-in / default part of `get_response` (app.py lines 552-573):
rank the built-in tier with the simplified scorer; on a positive best
score answer from that category, appending the follow-up suffix whenever
the message contains a question mark; otherwise answer from the default
pool, with no personalization at all. -/
def builtinStage (msg : List Char) (pick : Nat) : List Char :=
  match bestBy (builtinCatScore msg) knowledge_base with
  | (some c, s) =>
    if 0 < s then
      let r := choice c.responses pick
      if '?' ∈ msg then r ++ followUpSuffix else r
    else choice default_responses pick
  | (none, _) => choice default_responses pick

/-- `CollegeAI.get_response` (app.py lines 521-581), the history side
effect dropped.  The admin tier is ranked first; its winner answers when
its score is positive and its response list non-empty, gaining the
follow-up suffix when the message has a question mark, the chosen
response is non-empty and its stripped text does not already end in a
question mark.  Otherwise the built-in/default stage answers. -/
def getResponse (admin : List Entry) (msg : List Char) (pick : Nat) : List Char :=
  match bestBy (adminScore msg) admin with
  | (some e, s) =>
    if 0 < s ∧ e.responses ≠ [] then
      let r := choice e.responses pick
      if '?' ∈ msg ∧ r ≠ [] ∧ (pyStrip r).getLast? ≠ some '?' then
        r ++ followUpSuffix
      else r
    else builtinStage msg pick
  | (none, _) => builtinStage msg pick

/-- Which source the selector answered from (spec-side view of the three
branches of Section 4.4 of the specification). -/
inductive Chosen where
  | fromAdmin (e : Entry) (r : List Char)
  | fromBuiltin (c : Category) (r : List Char)
  | fromDefault (r : List Char)
deriving DecidableEq

/-- The text a `Chosen` carries, before personalization. -/
def Chosen.text : Chosen → List Char
  | .fromAdmin _ r => r
  | .fromBuiltin _ r => r
  | .fromDefault r => r

/-- Spec-side restatement of the built-in/default selection, without the
personalization step. -/
def selectBuiltin (msg : List Char) (pick : Nat) : Chosen :=
  match bestBy (builtinCatScore msg) knowledge_base with
  | (some c, s) =>
    if 0 < s then .fromBuiltin c (choice c.responses pick)
    else .fromDefault (choice default_responses pick)
  | (none, _) => .fromDefault (choice default_responses pick)

/-- Spec-side restatement of the full selection, without personalization. -/
def selectResponse (admin : List Entry) (msg : List Char) (pick : Nat) : Chosen :=
  match bestBy (adminScore msg) admin with
  | (some e, s) =>
    if 0 < s ∧ e.responses ≠ [] then .fromAdmin e (choice e.responses pick)
    else selectBuiltin msg pick
  | (none, _) => selectBuiltin msg pick

/-- When the personalization suffix is due, per branch: for an admin
answer, when the message has a question mark, the chosen response is
non-empty and its stripped text does not end in a question mark; for a
built-in answer, whenever the message has a question mark; never for a
default-pool answer. -/
def suffixDue (msg : List Char) : Chosen → Prop
  | .fromAdmin _ r => '?' ∈ msg ∧ r ≠ [] ∧ (pyStrip r).getLast? ≠ some '?'
  | .fromBuiltin _ _ => '?' ∈ msg
  | .fromDefault _ => False

instance (msg : List Char) (c : Chosen) : Decidable (suffixDue msg c) := by
  cases c <;> simp only [suffixDue] <;> infer_instance


/-! ### The ranking loop: helper lemmas -/

theorem bestByAux_stay (f : α → Nat) (l : List α) (best : Option α) (bs : Nat)
    (h : ∀ x ∈ l, f x ≤ bs) : bestByAux f l best bs = (best, bs) := by
  induction l with
  | nil => rfl
  | cons x xs ih =>
    have hx : ¬bs < f x := not_lt.mpr (h x (List.mem_cons_self x xs))
    simp only [bestByAux, if_neg hx]
    exact ih fun y hy => h y (List.mem_cons_of_mem _ hy)

/-- Full characterization of the selection loop: either nothing beats the
incoming best score and the accumulator is returned unchanged, or the
result is the first list element that strictly beats everything before it
and is never strictly beaten after. -/
theorem bestByAux_spec (f : α → Nat) (l : List α) (best : Option α) (bs : Nat) :
    (bestByAux f l best bs = (best, bs) ∧ ∀ x ∈ l, f x ≤ bs) ∨
    (∃ i, ∃ hi : i < l.length,
      bestByAux f l best bs = (some (l.get ⟨i, hi⟩), f (l.get ⟨i, hi⟩)) ∧
      bs < f (l.get ⟨i, hi⟩) ∧
      (∀ j (hj : j < l.length), j < i → f (l.get ⟨j, hj⟩) < f (l.get ⟨i, hi⟩)) ∧
      (∀ j (hj : j < l.length), f (l.get ⟨j, hj⟩) ≤ f (l.get ⟨i, hi⟩))) := by
  induction l generalizing best bs with
  | nil => exact Or.inl ⟨rfl, by simp⟩
  | cons x xs ih =>
    by_cases hx : bs < f x
    · right
      have step : bestByAux f (x :: xs) best bs = bestByAux f xs (some x) (f x) := by
        simp only [bestByAux, if_pos hx]
      rcases ih (some x) (f x) with ⟨heq, hall⟩ | ⟨i, hi, heq, hgt, hfirst, hmax⟩
      · refine ⟨0, by simp, ?_, ?_, ?_, ?_⟩
        · simpa [step] using heq
        · simpa using hx
        · intro j hj hj0; omega
        · intro j hj
          cases j with
          | zero => simp
          | succ k =>
            simp only [List.length_cons] at hj
            have := hall (xs.get ⟨k, by omega⟩) (xs.get_mem _ _)
            simpa using this
      · refine ⟨i + 1, by simpa using Nat.succ_lt_succ hi, ?_, ?_, ?_, ?_⟩
        · simpa [step] using heq
        · exact lt_trans hx (by simpa using hgt)
        · intro j hj hji
          cases j with
          | zero => simpa using hgt
          | succ k =>
            simp only [List.length_cons] at hj
            have := hfirst k (by omega) (by omega)
            simpa using this
        · intro j hj
          cases j with
          | zero => simpa using le_of_lt hgt
          | succ k =>
            simp only [List.length_cons] at hj
            have := hmax k (by omega)
            simpa using this
    · have hxle : f x ≤ bs := not_lt.mp hx
      have step : bestByAux f (x :: xs) best bs = bestByAux f xs best bs := by
        simp only [bestByAux, if_neg hx]
      rcases ih best bs with ⟨heq, hall⟩ | ⟨i, hi, heq, hgt, hfirst, hmax⟩
      · left
        refine ⟨by simpa [step] using heq, ?_⟩
        intro y hy
        rcases List.mem_cons.mp hy with rfl | hy
        · exact hxle
        · exact hall y hy
      · right
        refine ⟨i + 1, by simpa using Nat.succ_lt_succ hi, ?_, ?_, ?_, ?_⟩
        · simpa [step] using heq
        · calc bs < f (xs.get ⟨i, hi⟩) := hgt
            _ = f ((x :: xs).get ⟨i + 1, by simpa using Nat.succ_lt_succ hi⟩) := by simp
        · intro j hj hji
          cases j with
          | zero => simpa using lt_of_le_of_lt hxle hgt
          | succ k =>
            simp only [List.length_cons] at hj
            have := hfirst k (by omega) (by omega)
            simpa using this
        · intro j hj
          cases j with
          | zero => simpa using le_of_lt (lt_of_le_of_lt hxle hgt)
          | succ k =>
            simp only [List.length_cons] at hj
            have := hmax k (by omega)
            simpa using this

/-- If some element scores positively, the ranker returns a winner with a
positive score that equals the winner's own score. -/
theorem bestBy_pos_of_exists (f : α → Nat) (l : List α)
    (h : ∃ e ∈ l, 0 < f e) : ∃ w s, bestBy f l = (some w, s) ∧ 0 < s ∧ s = f w := by
  rcases bestByAux_spec f l none 0 with ⟨_, hall⟩ | ⟨i, hi, heq, hgt, _, _⟩
  · rcases h with ⟨e, he, hpos⟩
    exact absurd (hall e he) (by omega)
  · exact ⟨l.get ⟨i, hi⟩, f (l.get ⟨i, hi⟩), heq, hgt, rfl⟩


/-! ### Claim C4: the ranker selects the first strict maximum -/

/-- C4: the ranker `bestBy` (the loop of `get_response` used on both the
admin tier, app.py lines 533-539, and the built-in tier, lines 553-560)
selects by strict `>` while iterating in list order: an all-zero score
list yields no match, and a returned winner has a positive score equal
to its own score, strictly beats every earlier element, and is never
strictly beaten, so among elements sharing the maximal score the
earliest wins. -/
theorem ranker_strict_first_max (f : α → Nat) (l : List α) :
    ((∀ x ∈ l, f x = 0) → bestBy f l = (none, 0)) ∧
    (∀ e s, bestBy f l = (some e, s) →
      0 < s ∧ s = f e ∧
      ∃ i, ∃ hi : i < l.length, l.get ⟨i, hi⟩ = e ∧
        (∀ j (hj : j < l.length), j < i → f (l.get ⟨j, hj⟩) < s) ∧
        (∀ j (hj : j < l.length), f (l.get ⟨j, hj⟩) ≤ s)) := by
  constructor
  · intro h
    exact bestByAux_stay f l none 0 fun x hx => le_of_eq (h x hx)
  · intro e s heq
    rw [bestBy] at heq
    rcases bestByAux_spec f l none 0 with ⟨h0, _⟩ | ⟨i, hi, h0, hgt, hfirst, hmax⟩
    · rw [h0] at heq
      simp at heq
    · rw [h0] at heq
      injection heq with h1 h2
      injection h1 with h1
      subst h1
      subst h2
      exact ⟨hgt, rfl, i, hi, rfl, hfirst, hmax⟩

/-- Witness for C4, at the score list `[0, 2, 2]` (scored by the identity):
the loop returns the earlier of the two tied elements. -/
theorem ranker_strict_first_max_witness :
    bestBy (fun n : Nat => n) [0, 2, 2] = (some 2, 2) ∧
    (0 < 2 ∧ 2 = 2 ∧
      ∃ i, ∃ hi : i < [0, 2, 2].length, [0, 2, 2].get ⟨i, hi⟩ = 2 ∧
        (∀ j (hj : j < [0, 2, 2].length), j < i → [0, 2, 2].get ⟨j, hj⟩ < 2) ∧
        (∀ j (hj : j < [0, 2, 2].length), [0, 2, 2].get ⟨j, hj⟩ ≤ 2)) ∧
    bestBy (fun n : Nat => n) [0, 0, 0] = (none, 0) :=
  ⟨by decide,
   (ranker_strict_first_max (fun n : Nat => n) [0, 2, 2]).2 2 2 (by decide),
   (ranker_strict_first_max (fun n : Nat => n) [0, 0, 0]).1 (by decide)⟩


/-! ### Tokenizer lemmas: a non-alphanumeric separator splits the token list -/

/-- A non-alphanumeric character flushes the current run and restarts the scan. -/
theorem tokensAux_nonalnum_cons (c : Char) (hc : isAlnumChar c = false)
    (acc l : List Char) :
    tokensAux acc (c :: l) =
      (if acc.isEmpty then [] else [acc.reverse]) ++ tokensAux [] l := by
  by_cases ha : acc.isEmpty
  · simp [tokensAux, hc, ha]
  · simp [tokensAux, hc, ha]

theorem tokensAux_sep :
    ∀ (sep : List Char), sep ≠ [] → (∀ c ∈ sep, isAlnumChar c = false) →
    ∀ (acc ys : List Char),
      tokensAux acc (sep ++ ys) =
        (if acc.isEmpty then [] else [acc.reverse]) ++ tokensAux [] ys
  | [], h, _ => absurd rfl h
  | [c], _, hna => fun acc ys => by
    simpa using tokensAux_nonalnum_cons c (hna c (by simp)) acc ys
  | c :: c2 :: rest, _, hna => fun acc ys => by
    have ih := tokensAux_sep (c2 :: rest) (by simp)
      (fun d hd => hna d (List.mem_cons_of_mem _ hd)) [] ys
    simp only [List.isEmpty_nil, if_pos, List.nil_append] at ih
    rw [List.cons_append, tokensAux_nonalnum_cons c (hna c (by simp)), ih]

theorem tokensAux_split (sep : List Char) (hsep : sep ≠ [])
    (hna : ∀ c ∈ sep, isAlnumChar c = false) (ys : List Char) :
    ∀ (xs acc : List Char),
      tokensAux acc (xs ++ sep ++ ys) = tokensAux acc xs ++ tokensAux [] ys
  | [], acc => by
    have := tokensAux_sep sep hsep hna acc ys
    by_cases ha : acc.isEmpty
    · simp only [List.nil_append, this, ha, if_pos]
      cases acc with
      | nil => simp [tokensAux]
      | cons a as => simp at ha
    · simp only [List.nil_append, this, ha, if_neg]
      cases acc with
      | nil => simp at ha
      | cons a as => simp [tokensAux]
  | c :: xs, acc => by
    by_cases hc : isAlnumChar c
    · simpa [tokensAux, hc] using tokensAux_split sep hsep hna ys xs (c :: acc)
    · have hc2 : isAlnumChar c = false := by simpa using hc
      rw [List.cons_append, List.cons_append,
        tokensAux_nonalnum_cons c hc2 acc (xs ++ sep ++ ys),
        tokensAux_nonalnum_cons c hc2 acc xs,
        tokensAux_split sep hsep hna ys xs [], List.append_assoc]

/-- Joining two strings with the sample separator `" \n "` tokenizes to the
two token lists, concatenated. -/
theorem tokenizeQ_sample_join (x y : List Char) :
    tokenizeQ (x ++ sampleSep ++ y) = tokenizeQ x ++ tokenizeQ y := by
  have hsep : sampleSep.map lowerChar = sampleSep := by decide
  have hna : ∀ c ∈ sampleSep, isAlnumChar c = false := by decide
  simp only [tokenizeQ, findTokens, lowerStr, List.map_append, hsep]
  rw [tokensAux_split sampleSep (by decide) hna (y.map lowerChar) (x.map lowerChar) [],
    List.filter_append]


/-! ### Claim C2: the four-signal scoring formula -/

theorem foldl_union_eq (T : List Char → Finset (List Char)) :
    ∀ (l : List (List Char)) (init : Finset (List Char)),
      l.foldl (fun acc k => acc ∪ T k) init = init ∪ (l.map T).foldr (· ∪ ·) ∅
  | [], init => by simp
  | k :: l, init => by
    rw [List.foldl_cons, foldl_union_eq T l (init ∪ T k)]
    simp [Finset.union_assoc]

/-- Spec-side scoring formula, read off the specification text word for
word: 3 points per keyword occurring as a literal substring of the
lowercased query (Python's `"" in s` is true, so the empty keyword
counts), plus the three capped token-overlap signals over keyword
tokens, title tokens and the tokens of the first two responses. -/
def scoreSpecLiteral (msgLower : List Char) (u : Finset (List Char)) (e : Entry) : Nat :=
  3 * e.keywords.countP (fun k => isSub k msgLower)
    + min (u ∩ (e.keywords.map (fun k => (tokenizeQ k).toFinset)).foldr (· ∪ ·) ∅).card 4
    + min (u ∩ (tokenizeQ e.title).toFinset).card 2
    + min (u ∩ ((e.responses.take 2).map (fun r => (tokenizeQ r).toFinset)).foldr (· ∪ ·) ∅).card 5

/-- Amended spec-side formula: as `scoreSpecLiteral`, but only non-empty
keywords earn substring points (the `if k` guard of line 503). -/
def scoreSpecAmended (msgLower : List Char) (u : Finset (List Char)) (e : Entry) : Nat :=
  3 * e.keywords.countP (fun k => !k.isEmpty && isSub k msgLower)
    + min (u ∩ (e.keywords.map (fun k => (tokenizeQ k).toFinset)).foldr (· ∪ ·) ∅).card 4
    + min (u ∩ (tokenizeQ e.title).toFinset).card 2
    + min (u ∩ ((e.responses.take 2).map (fun r => (tokenizeQ r).toFinset)).foldr (· ∪ ·) ∅).card 5

/-- The sample the scorer tokenizes (`" \n ".join(responses[:2])`) carries
exactly the union of the token sets of the first two responses. -/
theorem sample_tokens_eq_union (rs : List (List Char)) :
    (tokenizeQ (joinSep sampleSep (rs.take 2))).toFinset =
      ((rs.take 2).map (fun r => (tokenizeQ r).toFinset)).foldr (· ∪ ·) ∅ := by
  rcases rs with _ | ⟨a, _ | ⟨b, rest⟩⟩
  · simp [joinSep, tokenizeQ, findTokens, tokensAux]
  · simp [joinSep]
  · have h2 : (a :: b :: rest).take 2 = [a, b] := rfl
    rw [h2]
    show (tokenizeQ (a ++ sampleSep ++ b)).toFinset = _
    rw [tokenizeQ_sample_join]
    simp [List.toFinset_append]

/-- C2 (amended): `_score_entry_match` computes the four-signal formula of
the specification, with the empty keyword excluded from substring hits. -/
theorem scorer_four_signal_formula (msgLower : List Char) (u : Finset (List Char))
    (e : Entry) : score_entry_match msgLower u e = scoreSpecAmended msgLower u e := by
  simp only [score_entry_match, scoreSpecAmended]
  rw [List.countP_eq_length_filter, foldl_union_eq, sample_tokens_eq_union]
  simp only [Finset.empty_union]
  ring

/-- C2 counterexample to the literal formula: an entry holding the empty
keyword (creatable through POST /api/knowledge with `keywords: [""]`)
scores 0 in the code on the query `"zzz"`, while the claimed formula
counts the empty string as a substring hit and yields 3. -/
theorem scorer_empty_keyword_counterexample :
    score_entry_match ("zzz").data {("zzz").data} ⟨("e1").data, [], [[]], []⟩ = 0 ∧
    scoreSpecLiteral ("zzz").data {("zzz").data} ⟨("e1").data, [], [[]], []⟩ = 3 ∧
    score_entry_match ("zzz").data {("zzz").data} ⟨("e1").data, [], [[]], []⟩ ≠
      scoreSpecLiteral ("zzz").data {("zzz").data} ⟨("e1").data, [], [[]], []⟩ := by
  refine ⟨by decide, by decide, by decide⟩


/-! ### Claim C6: a fresh keyword substring hit is worth exactly 3 -/

/-- The keyword substring-hit count of `_score_entry_match` line 503. -/
def keywordHitCount (msgLower : List Char) (e : Entry) : Nat :=
  (e.keywords.filter (fun k => !k.isEmpty && isSub k msgLower)).length

/-- C6: extending the query so that exactly one more of the entry's
keywords occurs as a literal substring of the lowercased query, while
the query's token set stays the same (all else fixed), raises the
entry's score by exactly 3. -/
theorem scorer_keyword_hit_monotone (q1 q2 : List Char) (e : Entry)
    (htok : (tokenizeQ q1).toFinset = (tokenizeQ q2).toFinset)
    (hhit : keywordHitCount (lowerStr q2) e = keywordHitCount (lowerStr q1) e + 1) :
    adminScore q2 e = adminScore q1 e + 3 := by
  simp only [adminScore, score_entry_match, ← htok]
  simp only [keywordHitCount] at hhit
  rw [hhit]
  ring

/-- Witness for C6: the entry keyword `"the"` (a stopword, so the token
sets agree) becomes a substring hit when the query grows from `"zzz"` to
`"zzz the"`, and the score rises from 0 to 3. -/
theorem scorer_keyword_hit_monotone_witness :
    adminScore ("zzz the").data ⟨("e1").data, [], [("the").data], []⟩ =
      adminScore ("zzz").data ⟨("e1").data, [], [("the").data], []⟩ + 3 :=
  scorer_keyword_hit_monotone ("zzz").data ("zzz the").data
    ⟨("e1").data, [], [("the").data], []⟩ (by decide) (by decide)

/-! ### Claim C3: the personalization rule, branch by branch -/

/-- The built-in/default stage applies the suffix exactly when `suffixDue`
says so. -/
theorem personalization_builtin (msg : List Char) (pick : Nat) :
    builtinStage msg pick =
      (if suffixDue msg (selectBuiltin msg pick) then
        (selectBuiltin msg pick).text ++ followUpSuffix
      else (selectBuiltin msg pick).text) := by
  unfold builtinStage selectBuiltin
  rcases hb : bestBy (builtinCatScore msg) knowledge_base with ⟨c?, t⟩
  rcases c? with _ | c
  · simp [suffixDue, Chosen.text]
  · by_cases ht : 0 < t
    · by_cases hq : '?' ∈ msg
      · simp [ht, hq, suffixDue, Chosen.text]
      · simp [ht, hq, suffixDue, Chosen.text]
    · simp [ht, suffixDue, Chosen.text]

/-- C3 (amended): the reply of `get_response` is the selected raw response,
with the follow-up suffix appended exactly once precisely when the
branch-dependent condition `suffixDue` holds: admin branch — question
mark in the query, non-empty chosen response, stripped response not
ending in a question mark; built-in branch — question mark in the query
(the response's own ending is not consulted); default branch — never. -/
theorem personalization_per_branch (admin : List Entry) (msg : List Char) (pick : Nat) :
    getResponse admin msg pick =
      (if suffixDue msg (selectResponse admin msg pick) then
        (selectResponse admin msg pick).text ++ followUpSuffix
      else (selectResponse admin msg pick).text) := by
  unfold getResponse selectResponse
  rcases ha : bestBy (adminScore msg) admin with ⟨e?, s⟩
  rcases e? with _ | e
  · exact personalization_builtin msg pick
  · by_cases hcond : 0 < s ∧ e.responses ≠ []
    · by_cases hsuf : '?' ∈ msg ∧ choice e.responses pick ≠ [] ∧
        (pyStrip (choice e.responses pick)).getLast? ≠ some '?'
      · simp [hcond, hsuf, suffixDue, Chosen.text]
      · simp [hcond, hsuf, suffixDue, Chosen.text]
    · simp only [if_neg hcond]
      exact personalization_builtin msg pick

/-- C3 counterexample to the rule as claimed: on the query `"course?"`
the built-in courses category wins and draw 0 picks a canned response
whose stripped text already ends in a question mark, yet the code still
appends the follow-up suffix; and on the no-match query `"zzz?"` the
default response of draw 0 does not end in a question mark, yet no
suffix is appended. -/
theorem personalization_counterexample :
    ('?' ∈ ("course?").data ∧
      (pyStrip kbCoursesR0).getLast? = some '?' ∧
      getResponse [] ("course?").data 0 = kbCoursesR0 ++ followUpSuffix) ∧
    ('?' ∈ ("zzz?").data ∧
      (pyStrip defaultResp0).getLast? ≠ some '?' ∧
      getResponse [] ("zzz?").data 0 = defaultResp0) := by
  refine ⟨⟨by decide, by decide, by decide⟩, ⟨by decide, by decide, by decide⟩⟩


/-! ### The admin knowledge store: loading and mutation -/

/-- A fragment of the Python values that can appear in the knowledge JSON
file: strings, lists, or anything else. -/
inductive PyVal where
  | str (s : List Char)
  | list (l : List PyVal)
  | other

/-- A raw entry as `_load_admin_knowledge` reads it from `knowledge.json`:
every field optional, shapes unchecked.  (`id`, `title` and `created_at`
written by the app are strings; a `keywords` value that is neither
absent, null nor a list would crash the handler and is out of model.) -/
structure RawEntry where
  id : Option (List Char)
  title : Option (List Char)
  keywords : Option (List PyVal)
  responses : Option PyVal
  response : Option PyVal

/-- Python `x or default` for an optional string: `None` and `""` are falsy. -/
def orDefault (v : Option (List Char)) (d : List Char) : List Char :=
  match v with
  | some s => if s.isEmpty then d else s
  | none => d

/-- One entry of `CollegeAI._load_admin_knowledge` (app.py lines 476-492):
`gen` stands for the fresh `str(uuid.uuid4())`; `created_at` is dropped
with the field.  Keywords keep only strings, lowercased; a missing
`responses` falls back to a singleton of `response`; a non-list
`responses` value becomes the empty list; responses keep only strings. -/
def normalizeEntry (gen : List Char) (raw : RawEntry) : Entry :=
  let keywords := (raw.keywords.getD []).filterMap (fun v => match v with
    | .str s => some (lowerStr s)
    | _ => none)
  let responses0 : Option PyVal :=
    match raw.responses, raw.response with
    | none, some r => some (.list [r])
    | rr, _ => rr
  let responses := match responses0 with
    | some (.list l) => l.filterMap (fun v => match v with
        | .str s => some s
        | _ => none)
    | _ => []
  { id := orDefault raw.id gen, title := orDefault raw.title ("Custom").data,
    keywords := keywords, responses := responses }

/-- `_load_admin_knowledge` over the whole file, with a supply of fresh ids. -/
def loadNormalize (gens : Nat → List Char) (raws : List RawEntry) : List Entry :=
  raws.mapIdx (fun i r => normalizeEntry (gens i) r)

/-- The shared mutable store: a heap of entry objects plus the reference
list `ai_assistant.admin_knowledge`.  Python's `list.copy()` copies the
reference list but aliases the entry dicts; the heap makes that
aliasing explicit. -/
structure KBState where
  heap : List Entry
  refs : List Nat
deriving DecidableEq

/-- The placeholder an out-of-range reference dereferences to (never hit
by states built by the handlers). -/
def blankEntry : Entry := ⟨[], [], [], []⟩

/-- The tier as a reader observes it: the referenced entry objects, in
reference-list order. -/
def viewTier (st : KBState) : List Entry :=
  st.refs.map (fun i => st.heap.getD i blankEntry)

/-- A PUT /api/knowledge body: each field optional (app.py lines 806-811);
list-valued fields are applied only when non-empty. -/
structure UpdateBody where
  title : Option (List Char)
  keywords : Option (List (List Char))
  responses : Option (List (List Char))
deriving DecidableEq

/-- The in-place mutation of the found entry dict (lines 806-811). -/
def applyBody (b : UpdateBody) (e : Entry) : Entry :=
  let e1 := match b.title with
    | some t => { e with title := t }
    | none => e
  let e2 := match b.keywords with
    | some ks => if ks.isEmpty then e1 else { e1 with keywords := ks.map lowerStr }
    | none => e1
  match b.responses with
  | some rs => if rs.isEmpty then e2 else { e2 with responses := rs }
  | none => e2

/-- The first reference whose entry has the requested id (the `for`/`break`
loop of lines 800-803). -/
def findRefIdx (st : KBState) (entryId : List Char) : Option Nat :=
  st.refs.find? (fun i => (st.heap.getD i blankEntry).id == entryId)

/-- Outcome of a mutating handler. -/
inductive MutResult where
  | ok
  | notFound
  | saveFailed
  | badRequest
deriving DecidableEq

/-- `update_knowledge` (app.py lines 791-818), the persistence outcome
exposed as `saveOk`: `entries = admin_knowledge.copy()` shares the entry
objects, the found entry is mutated in place, and only then is the save
attempted.  On failure the handler returns without assigning
`ai_assistant.admin_knowledge`, but the heap mutation stays. -/
def update_knowledge (st : KBState) (entryId : List Char) (body : UpdateBody)
    (saveOk : Bool) : KBState × MutResult :=
  match findRefIdx st entryId with
  | none => (st, .notFound)
  | some i =>
    let heap2 := st.heap.set i (applyBody body (st.heap.getD i blankEntry))
    if saveOk then (⟨heap2, st.refs⟩, .ok) else (⟨heap2, st.refs⟩, .saveFailed)

/-- `add_knowledge` (app.py lines 755-789), the persistence outcome exposed
as `saveOk`: validation first, then a fresh entry object is appended to
a copied reference list; on save failure the old reference list stays
and the fresh object is unreachable. -/
def add_knowledge (st : KBState) (title : List Char) (kws resps : List (List Char))
    (newId : List Char) (saveOk : Bool) : KBState × MutResult :=
  if kws.isEmpty ∨ resps.isEmpty then (st, .badRequest)
  else
    let entry : Entry := ⟨newId, title, kws.map lowerStr, resps⟩
    let heap2 := st.heap ++ [entry]
    if saveOk then (⟨heap2, st.refs ++ [st.heap.length]⟩, .ok)
    else (⟨heap2, st.refs⟩, .saveFailed)


/-! ### Claim C1: the admin tier strictly precedes the built-in tier -/

/-- A chosen response always comes from the pool, when the pool is non-empty. -/
theorem choice_mem (pool : List (List Char)) (pick : Nat) (h : pool ≠ []) :
    choice pool pick ∈ pool := by
  have hlen : 0 < pool.length := List.length_pos.mpr h
  have hlt : pick % pool.length < pool.length := Nat.mod_lt _ hlen
  simp only [choice, List.getD_eq_getElem?_getD, List.getElem?_eq_getElem hlt,
    Option.getD_some]
  exact List.getElem_mem hlt

/-- C1 (amended): whenever some admin entry scores positively against the
query, the admin ranker returns a positive-scoring winner, and — provided
that winner's response list is non-empty — `get_response` answers with
one of the winner's own responses (possibly suffixed), never with a
built-in category or default response. -/
theorem admin_tier_precedence (admin : List Entry) (msg : List Char) (pick : Nat)
    (hpos : ∃ e ∈ admin, 0 < adminScore msg e) :
    ∃ w s, bestBy (adminScore msg) admin = (some w, s) ∧ 0 < s ∧
      (w.responses ≠ [] →
        ∃ r ∈ w.responses, getResponse admin msg pick = r ∨
          getResponse admin msg pick = r ++ followUpSuffix) := by
  obtain ⟨w, s, hb, hs, hsw⟩ := bestBy_pos_of_exists _ _ hpos
  refine ⟨w, s, hb, hs, ?_⟩
  intro hne
  have hres : getResponse admin msg pick =
      (if '?' ∈ msg ∧ choice w.responses pick ≠ [] ∧
          (pyStrip (choice w.responses pick)).getLast? ≠ some '?' then
        choice w.responses pick ++ followUpSuffix
      else choice w.responses pick) := by
    simp only [getResponse, hb]
    rw [if_pos ⟨hs, hne⟩]
  refine ⟨choice w.responses pick, choice_mem _ _ hne, ?_⟩
  by_cases hc : '?' ∈ msg ∧ choice w.responses pick ≠ [] ∧
      (pyStrip (choice w.responses pick)).getLast? ≠ some '?'
  · exact Or.inr (by rw [hres, if_pos hc])
  · exact Or.inl (by rw [hres, if_neg hc])

/-- Witness for C1: a single admin entry with keyword `"zzz"` scores
positively on the query `"zzz"` and its response is returned. -/
theorem admin_tier_precedence_witness :
    ∃ w s,
      bestBy (adminScore ("zzz").data)
        [⟨("w1").data, [], [("zzz").data], [("Hello").data]⟩] = (some w, s) ∧
      0 < s ∧
      (w.responses ≠ [] →
        ∃ r ∈ w.responses,
          getResponse [⟨("w1").data, [], [("zzz").data], [("Hello").data]⟩]
              ("zzz").data 0 = r ∨
          getResponse [⟨("w1").data, [], [("zzz").data], [("Hello").data]⟩]
              ("zzz").data 0 = r ++ followUpSuffix) :=
  admin_tier_precedence [⟨("w1").data, [], [("zzz").data], [("Hello").data]⟩]
    ("zzz").data 0
    ⟨⟨("w1").data, [], [("zzz").data], [("Hello").data]⟩, by decide, by decide⟩

/-- C1 counterexample to the claim as stated: a loaded entry whose raw
`responses` field is not a list normalizes to an empty response list
(app.py lines 484-485); on the query `"zzz"` it scores 4 > 0, yet
`get_response` falls through past the admin tier and answers from the
default pool — not with any admin entry's response. -/
theorem admin_tier_precedence_counterexample :
    loadNormalize (fun _ => ("u").data)
        [⟨some ("e1").data, some ("T").data, some [.str ("zzz").data], some .other, none⟩] =
      [⟨("e1").data, ("T").data, [("zzz").data], []⟩] ∧
    0 < adminScore ("zzz").data ⟨("e1").data, ("T").data, [("zzz").data], []⟩ ∧
    getResponse [⟨("e1").data, ("T").data, [("zzz").data], []⟩] ("zzz").data 0 =
      defaultResp0 ∧
    defaultResp0 ∉ (⟨("e1").data, ("T").data, [("zzz").data], []⟩ : Entry).responses := by
  refine ⟨by decide, by decide, by decide, by decide⟩

/-! ### Claim C5: what a failed save leaves in memory -/

/-- C5 (the code violates it for PUT): updating entry `"e1"` with a new
title while the save fails reports the failure and, because the copied
list shares the entry objects, the observed in-memory tier has already
changed from its pre-mutation state. -/
theorem update_save_failure_mutates_tier :
    (update_knowledge ⟨[⟨("e1").data, ("Old").data, [("k").data], [("R").data]⟩], [0]⟩
        ("e1").data ⟨some ("New").data, none, none⟩ false).2 = .saveFailed ∧
    viewTier ⟨[⟨("e1").data, ("Old").data, [("k").data], [("R").data]⟩], [0]⟩ =
      [⟨("e1").data, ("Old").data, [("k").data], [("R").data]⟩] ∧
    viewTier (update_knowledge ⟨[⟨("e1").data, ("Old").data, [("k").data], [("R").data]⟩], [0]⟩
        ("e1").data ⟨some ("New").data, none, none⟩ false).1 =
      [⟨("e1").data, ("New").data, [("k").data], [("R").data]⟩] ∧
    viewTier (update_knowledge ⟨[⟨("e1").data, ("Old").data, [("k").data], [("R").data]⟩], [0]⟩
        ("e1").data ⟨some ("New").data, none, none⟩ false).1 ≠
      viewTier ⟨[⟨("e1").data, ("Old").data, [("k").data], [("R").data]⟩], [0]⟩ := by
  refine ⟨by decide, by decide, by decide, by decide⟩

/-! ### Claim C10: keywords are stored lowercased -/

theorem lowerChar_idem (c : Char) : lowerChar (lowerChar c) = lowerChar c := by
  by_cases h : 65 ≤ c.toNat ∧ c.toNat ≤ 90
  · have hc : lowerChar c = Char.ofNat (c.toNat + 32) := by rw [lowerChar, if_pos h]
    have key : ∀ n, n < 91 → 65 ≤ n →
        lowerChar (Char.ofNat (n + 32)) = Char.ofNat (n + 32) := by decide
    rw [hc]
    exact key c.toNat (by omega) (by omega)
  · have hc : lowerChar c = c := by rw [lowerChar, if_neg h]
    rw [hc, hc]

theorem lowerStr_idem (s : List Char) : lowerStr (lowerStr s) = lowerStr s := by
  simp only [lowerStr, List.map_map]
  exact List.map_congr_left fun c _ => lowerChar_idem c

/-- The keyword invariant of claim C10: every keyword equals its own
lowercased form.  (That responses are strings holds by the typing of
`Entry.responses`.) -/
def kwLowered (e : Entry) : Prop := ∀ k ∈ e.keywords, lowerStr k = k

instance (e : Entry) : Decidable (kwLowered e) := by
  unfold kwLowered; infer_instance

theorem normalizeEntry_kwLowered (g : List Char) (r : RawEntry) :
    kwLowered (normalizeEntry g r) := by
  intro k hk
  simp only [normalizeEntry, List.mem_filterMap] at hk
  obtain ⟨v, _, hv⟩ := hk
  cases v with
  | str s =>
    simp only [Option.some.injEq] at hv
    rw [← hv]
    exact lowerStr_idem s
  | list l => simp at hv
  | other => simp at hv

theorem applyBody_kwLowered (b : UpdateBody) (e : Entry) (he : kwLowered e) :
    kwLowered (applyBody b e) := by
  have hmap : ∀ ks : List (List Char), ∀ k ∈ ks.map lowerStr, lowerStr k = k := by
    intro ks k hk
    obtain ⟨k0, _, hk0⟩ := List.mem_map.mp hk
    rw [← hk0]
    exact lowerStr_idem k0
  rcases b with ⟨t, ks, rs⟩
  unfold applyBody
  rcases ks with _ | ks
  all_goals rcases t with _ | t
  all_goals rcases rs with _ | rs
  all_goals simp only []
  all_goals first
    | (intro k hk; exact he k hk)
    | (by_cases hke : ks.isEmpty
       · simp only [hke, if_true]
         first
           | (by_cases hre : rs.isEmpty
              · simp only [hre, if_true]; intro k hk; exact he k hk
              · simp only [hre, if_false]; intro k hk; exact he k hk)
           | (intro k hk; exact he k hk)
       · simp only [hke, if_false]
         first
           | (by_cases hre : rs.isEmpty
              · simp only [hre, if_true]; intro k hk; exact hmap ks k hk
              · simp only [hre, if_false]; intro k hk; exact hmap ks k hk)
           | (intro k hk; exact hmap ks k hk))
    | (by_cases hre : rs.isEmpty
       · simp only [hre, if_true]; intro k hk; exact he k hk
       · simp only [hre, if_false]; intro k hk; exact he k hk)

theorem getD_kwLowered (heap : List Entry) (h : ∀ e ∈ heap, kwLowered e) (i : Nat) :
    kwLowered (heap.getD i blankEntry) := by
  by_cases hi : i < heap.length
  · rw [List.getD_eq_getElem?_getD, List.getElem?_eq_getElem hi, Option.getD_some]
    exact h _ (List.getElem_mem hi)
  · rw [List.getD_eq_getElem?_getD, List.getElem?_eq_none (by omega), Option.getD_none]
    intro k hk
    simp [blankEntry] at hk

theorem loadNormalize_kwLowered (gens : Nat → List Char) :
    ∀ (raws : List RawEntry), ∀ e ∈ loadNormalize gens raws, kwLowered e := by
  intro raws
  unfold loadNormalize
  induction raws generalizing gens with
  | nil => intro e he; simp at he
  | cons r rs ih =>
    intro e he
    rw [List.mapIdx_cons] at he
    rcases List.mem_cons.mp he with rfl | he
    · exact normalizeEntry_kwLowered _ _
    · exact ih (fun i => gens (i + 1)) e he

/-- C10: after the initial load and after every add or update (whatever
the persistence outcome), every entry object of the store satisfies the
keyword invariant, because each of the three paths pipes keywords
through `str(k).lower()`. -/
theorem admin_keywords_lowercase (gens : Nat → List Char) (raws : List RawEntry)
    (st : KBState) (title : List Char) (kws resps : List (List Char))
    (newId entryId : List Char) (body : UpdateBody) (saveOk : Bool) :
    (∀ e ∈ loadNormalize gens raws, kwLowered e) ∧
    ((∀ e ∈ st.heap, kwLowered e) →
      ∀ e ∈ (add_knowledge st title kws resps newId saveOk).1.heap, kwLowered e) ∧
    ((∀ e ∈ st.heap, kwLowered e) →
      ∀ e ∈ (update_knowledge st entryId body saveOk).1.heap, kwLowered e) ∧
    ((∀ e ∈ st.heap, kwLowered e) → ∀ e ∈ viewTier st, kwLowered e) := by
  refine ⟨loadNormalize_kwLowered gens raws, ?_, ?_, ?_⟩
  · intro h e he
    unfold add_knowledge at he
    by_cases hbad : kws.isEmpty ∨ resps.isEmpty
    · rw [if_pos hbad] at he
      exact h e he
    · rw [if_neg hbad] at he
      have hmem : e ∈ st.heap ++
          [(⟨newId, title, kws.map lowerStr, resps⟩ : Entry)] := by
        cases saveOk with
        | true => simpa using he
        | false => simpa using he
      rcases List.mem_append.mp hmem with he2 | he2
      · exact h e he2
      · intro k hk
        have : e = ⟨newId, title, kws.map lowerStr, resps⟩ := by simpa using he2
        rw [this] at hk
        simp only at hk
        obtain ⟨k0, _, hk0⟩ := List.mem_map.mp hk
        rw [← hk0]
        exact lowerStr_idem k0
  · intro h e he
    unfold update_knowledge at he
    rcases hfind : findRefIdx st entryId with _ | i
    · rw [hfind] at he
      exact h e he
    · rw [hfind] at he
      have hmem : e ∈ st.heap.set i
          (applyBody body (st.heap.getD i blankEntry)) := by
        cases saveOk with
        | true => simpa using he
        | false => simpa using he
      rcases List.mem_or_eq_of_mem_set hmem with he2 | he2
      · exact h e he2
      · rw [he2]
        exact applyBody_kwLowered body _ (getD_kwLowered st.heap h i)
  · intro h e he
    obtain ⟨i, _, hi⟩ := List.mem_map.mp he
    rw [← hi]
    exact getD_kwLowered st.heap h i

/-- Witness for C10, at a one-entry store: a mixed-case raw keyword loads
lowercased; an add with keyword `"KW"` and an update setting keywords
`["UP"]` under a failed save both keep the invariant. -/
theorem admin_keywords_lowercase_witness :
    (∀ e ∈ loadNormalize (fun _ => ("u").data)
        [⟨some ("A").data, some ("T").data, some [.str ("MiXeD").data], none, none⟩],
      kwLowered e) ∧
    ((∀ e ∈ (⟨[⟨("e1").data, ("T").data, [("low").data], [("r").data]⟩], [0]⟩ :
        KBState).heap, kwLowered e) →
      ∀ e ∈ (add_knowledge ⟨[⟨("e1").data, ("T").data, [("low").data], [("r").data]⟩], [0]⟩
          ("T2").data [("KW").data] [("R").data] ("n1").data false).1.heap, kwLowered e) ∧
    ((∀ e ∈ (⟨[⟨("e1").data, ("T").data, [("low").data], [("r").data]⟩], [0]⟩ :
        KBState).heap, kwLowered e) →
      ∀ e ∈ (update_knowledge ⟨[⟨("e1").data, ("T").data, [("low").data], [("r").data]⟩], [0]⟩
          ("e1").data ⟨some ("X").data, some [("UP").data], none⟩ false).1.heap, kwLowered e) ∧
    ((∀ e ∈ (⟨[⟨("e1").data, ("T").data, [("low").data], [("r").data]⟩], [0]⟩ :
        KBState).heap, kwLowered e) →
      ∀ e ∈ viewTier ⟨[⟨("e1").data, ("T").data, [("low").data], [("r").data]⟩], [0]⟩,
        kwLowered e) :=
  admin_keywords_lowercase (fun _ => ("u").data)
    [⟨some ("A").data, some ("T").data, some [.str ("MiXeD").data], none, none⟩]
    ⟨[⟨("e1").data, ("T").data, [("low").data], [("r").data]⟩], [0]⟩
    ("T2").data [("KW").data] [("R").data] ("n1").data ("e1").data
    ⟨some ("X").data, some [("UP").data], none⟩ false


/-! ### Document ingestion: chunking (claims C7 and C9) -/

/-- The index of the last newline in `l`, if any. -/
def lastNL (l : List Char) : Option Nat :=
  match l.reverse.findIdx? (fun c => c == '\n') with
  | none => none
  | some r => some (l.length - 1 - r)

/-- The scan of `re.split(r"\n\s*\n", text)` (app.py line 887): a match of
the greedy, backtracking pattern starts at a newline whose following
whitespace run contains another newline, and extends to the last newline
of that run; the piece so far is emitted and the scan restarts after the
match.  `acc` holds the current piece, reversed; `fuel` bounds the
recursion by the text length (each step consumes at least one character,
so with `fuel = length` the cut-off case is unreachable). -/
def splitBlankAux : Nat → List Char → List Char → List (List Char)
  | _, acc, [] => [acc.reverse]
  | 0, acc, _ :: _ => [acc.reverse]
  | fuel + 1, acc, c :: rest =>
    if c == '\n' then
      match lastNL (rest.takeWhile isPySpace) with
      | none => splitBlankAux fuel (c :: acc) rest
      | some p => acc.reverse :: splitBlankAux fuel [] (rest.drop (p + 1))
    else splitBlankAux fuel (c :: acc) rest

/-- `re.split(r"\n\s*\n", text)`. -/
def splitBlank (text : List Char) : List (List Char) :=
  splitBlankAux text.length [] text

/-- Line 887 of app.py: the stripped, non-empty paragraphs of the text. -/
def paragraphsOf (text : List Char) : List (List Char) :=
  ((splitBlank text).map pyStrip).filter (fun p => !p.isEmpty)

/-- The inner while-loop of `chunk_text` (app.py lines 889-894), with the
same fuel pattern (`size = 0`, which would loop forever in Python, is
cut off; `chunk_text` only ever passes `size = 800`). -/
def chunksOfAux (size : Nat) : Nat → List Char → List (List Char)
  | _, [] => []
  | 0, _ :: _ => []
  | fuel + 1, c :: rest =>
    if size = 0 then []
    else (c :: rest).take size :: chunksOfAux size fuel ((c :: rest).drop size)

/-- Slice a paragraph into consecutive `size`-character segments, the last
possibly shorter. -/
def chunksOf (size : Nat) (l : List Char) : List (List Char) :=
  chunksOfAux size l.length l

/-- `chunk_text` (app.py lines 886-895). -/
def chunk_text (text : List Char) (size : Nat) : List (List Char) :=
  (((paragraphsOf text).map (chunksOf size)).flatten).filter (fun s => !s.isEmpty)

/-- Lines 898-899 of app.py: null characters removed, chunked at 800,
truncated to 10 segments. -/
def pdfResponses (text : List Char) : List (List Char) :=
  (chunk_text (text.filter (fun c => c != Char.ofNat 0)) 800).take 10

/-- Spec-side chunking pipeline, as Section 4.5 words it: non-empty trimmed
paragraphs, sliced into 800-character segments, concatenated in document
order, truncated to at most 10 segments. -/
def chunkSpec (text : List Char) : List (List Char) :=
  (((paragraphsOf text).map (chunksOf 800)).flatten).take 10

/-- The slicing loop reconstructs its input: the segments concatenate back
to the paragraph, and every segment is non-empty of length at most
`size`. -/
theorem chunksOfAux_spec (size : Nat) (hs : 0 < size) :
    ∀ (fuel : Nat) (l : List Char), l.length ≤ fuel →
      (chunksOfAux size fuel l).flatten = l ∧
        ∀ s ∈ chunksOfAux size fuel l, s ≠ [] ∧ s.length ≤ size
  | fuel, [], _ => by cases fuel <;> simp [chunksOfAux]
  | 0, c :: rest, hl => by simp at hl
  | fuel + 1, c :: rest, hl => by
    rw [chunksOfAux, if_neg (by omega)]
    have hdrop : ((c :: rest).drop size).length ≤ fuel := by
      simp only [List.length_drop, List.length_cons]
      simp only [List.length_cons] at hl
      omega
    obtain ⟨hj, hseg⟩ := chunksOfAux_spec size hs fuel ((c :: rest).drop size) hdrop
    refine ⟨?_, ?_⟩
    · rw [List.flatten_cons, hj, List.take_append_drop]
    · intro s hsm
      rcases List.mem_cons.mp hsm with rfl | hsm
      · refine ⟨?_, ?_⟩
        · simp only [ne_eq, List.take_eq_nil_iff, not_or]
          exact ⟨by omega, by simp⟩
        · simp only [List.length_take]
          omega
      · exact hseg s hsm

theorem chunksOf_spec (size : Nat) (hs : 0 < size) (l : List Char) :
    (chunksOf size l).flatten = l ∧
      ∀ s ∈ chunksOf size l, s ≠ [] ∧ s.length ≤ size :=
  chunksOfAux_spec size hs l.length l le_rfl

/-- Every segment of the slicing loop except the last has length exactly
`size`. -/
theorem chunksOfAux_dropLast_exact (size : Nat) :
    ∀ (fuel : Nat) (l : List Char), l.length ≤ fuel →
      ∀ s ∈ (chunksOfAux size fuel l).dropLast, s.length = size
  | fuel, [], _ => by cases fuel <;> simp [chunksOfAux]
  | 0, c :: rest, hl => by simp at hl
  | fuel + 1, c :: rest, hl => by
    by_cases hz : size = 0
    · rw [chunksOfAux, if_pos hz]
      simp
    · rw [chunksOfAux, if_neg hz]
      have hdrop : ((c :: rest).drop size).length ≤ fuel := by
        simp only [List.length_drop, List.length_cons]
        simp only [List.length_cons] at hl
        omega
      intro s hsm
      by_cases hrest : chunksOfAux size fuel ((c :: rest).drop size) = []
      · rw [hrest] at hsm
        simp at hsm
      · rw [List.dropLast_cons_of_ne_nil hrest] at hsm
        rcases List.mem_cons.mp hsm with rfl | hsm
        · have hlong : size < (c :: rest).length := by
            by_contra hshort
            have hde : (c :: rest).drop size = [] :=
              List.drop_eq_nil_of_le (by omega)
            rw [hde] at hrest
            exact hrest (by cases fuel <;> simp [chunksOfAux])
          simp only [List.length_take]
          omega
        · exact chunksOfAux_dropLast_exact size fuel ((c :: rest).drop size) hdrop s hsm

theorem chunksOf_dropLast_exact (size : Nat) (l : List Char) :
    ∀ s ∈ (chunksOf size l).dropLast, s.length = size :=
  chunksOfAux_dropLast_exact size l.length l le_rfl

/-- For a positive size no segment is empty, so the final filter of
`chunk_text` keeps everything. -/
theorem chunk_text_filter_id (text : List Char) :
    chunk_text text 800 = ((paragraphsOf text).map (chunksOf 800)).flatten := by
  unfold chunk_text
  rw [List.filter_eq_self]
  intro s hsm
  obtain ⟨seg, hseg, hs⟩ := List.mem_flatten.mp hsm
  obtain ⟨p, _, hp⟩ := List.mem_map.mp hseg
  rw [← hp] at hs
  have := (chunksOf_spec 800 (by omega) p).2 s hs
  simpa using this.1

/-- C9: the slicing loop of `chunk_text` loses, duplicates and reorders
nothing: for any paragraph of any text (before the 10-segment
truncation), the segments concatenate back to the paragraph exactly, and
every segment is non-empty with length at most the chunk size 800. -/
theorem chunk_paragraph_reconstruction (text p : List Char)
    (hp : p ∈ paragraphsOf text) :
    (chunksOf 800 p).flatten = p ∧
      ∀ s ∈ chunksOf 800 p, s ≠ [] ∧ s.length ≤ 800 :=
  chunksOf_spec 800 (by omega) p

/-- Witness for C9 at the two-paragraph example text. -/
theorem chunk_paragraph_reconstruction_witness :
    ("Para one.").data ∈ paragraphsOf ("Para one.\n\nPara two.").data ∧
    ((chunksOf 800 ("Para one.").data).flatten = ("Para one.").data ∧
      ∀ s ∈ chunksOf 800 ("Para one.").data, s ≠ [] ∧ s.length ≤ 800) :=
  ⟨by decide, chunk_paragraph_reconstruction ("Para one.\n\nPara two.").data
    ("Para one.").data (by decide)⟩

/-- C7: the ingestion chunking equals the specified pipeline — blank-line
split into non-empty trimmed paragraphs, 800-character slices (all
non-final slices of a paragraph exactly 800 long), concatenation in
document order, truncation to at most 10 segments — and the example
text of two short paragraphs yields exactly those two segments. -/
theorem chunking_pipeline (text : List Char) :
    (chunk_text text 800).take 10 = chunkSpec text ∧
    (pdfResponses text).length ≤ 10 ∧
    (∀ p ∈ paragraphsOf text, ∀ s ∈ (chunksOf 800 p).dropLast, s.length = 800) ∧
    (chunk_text ("Para one.\n\nPara two.").data 800).take 10 =
      [("Para one.").data, ("Para two.").data] := by
  refine ⟨?_, ?_, ?_, ?_⟩
  · rw [chunk_text_filter_id, chunkSpec]
  · exact List.length_take_le 10 _
  · intro p _ s hs
    exact chunksOf_dropLast_exact 800 p s hs
  · decide

/-- Witness for C7, at a 900-character single-paragraph text: the one
non-final slice has length exactly 800. -/
theorem chunking_pipeline_witness :
    List.replicate 900 'a' ∈ paragraphsOf (List.replicate 900 'a') ∧
    List.replicate 800 'a' ∈ (chunksOf 800 (List.replicate 900 'a')).dropLast ∧
    (List.replicate 800 'a').length = 800 :=
  ⟨by decide, by decide,
    (chunking_pipeline (List.replicate 900 'a')).2.2.1 (List.replicate 900 'a')
      (by decide) (List.replicate 800 'a') (by decide)⟩


/-! ### Document ingestion: keyword derivation (claim C8) -/

/-- The upload route's local `tokenize` (app.py lines 907-908): maximal
alphanumeric runs of the lowercased text — no stopword filter here. -/
def pdfTokenize (text : List Char) : List (List Char) :=
  (findTokens (lowerStr text)).filter (fun t => !t.isEmpty)

/-- Python `raw.split(",")`: split at every comma, keeping empty pieces. -/
def splitCommaAux (acc : List Char) : List Char → List (List Char)
  | [] => [acc.reverse]
  | c :: rest =>
    if c == ',' then acc.reverse :: splitCommaAux [] rest
    else splitCommaAux (c :: acc) rest

/-- Python `raw.split(",")`. -/
def splitComma (s : List Char) : List (List Char) := splitCommaAux [] s

/-- Insertion into the insertion-ordered model of a Python set: a new
element goes to the back, an existing one stays put.  (Python's set
iteration order is unspecified; every property claimed of the keyword
set is order-independent.) -/
def insertNew (l : List (List Char)) (x : List Char) : List (List Char) :=
  if x ∈ l then l else l ++ [x]

/-- One step of `freq[tok] = freq.get(tok, 0) + 1` on a dict in insertion
order: an existing key is bumped in place, a new key is appended. -/
def bump : List (List Char × Nat) → List Char → List (List Char × Nat)
  | [], t => [(t, 1)]
  | (k, c) :: rest, t =>
    if k = t then (k, c + 1) :: rest else (k, c) :: bump rest t

/-- The frequency dict of the scan over a token stream (lines 915-919). -/
def freqList (ts : List (List Char)) : List (List Char × Nat) := ts.foldl bump []

/-- The tokens of the scan in first-encountered order (the dict's key
order). -/
def firstSeen (ts : List (List Char)) : List (List Char) := ts.foldl insertNew []

/-- The descending comparison of `sorted(freq.items(), key=count,
reverse=True)`; Python's sort is stable, as is `List.mergeSort`. -/
def countGE (a b : List Char × Nat) : Bool := decide (b.2 ≤ a.2)

/-- The tokens the frequency loop counts (lines 916-918): every token of
the extracted text of length > 2 that is not a stopword. -/
def pdfFreqTokens (text : List Char) : List (List Char) :=
  (pdfTokenize text).filter (fun t => decide (2 < t.length) && !stopwords.contains t)

/-- The user-supplied comma-separated keywords, trimmed, lowercased, empty
entries dropped (line 905). -/
def userKeywords (userRaw : List Char) : List (List Char) :=
  (splitComma userRaw).filterMap
    (fun k => if (pyStrip k).isEmpty then none else some (lowerStr (pyStrip k)))

/-- The first five title tokens of length > 2 (lines 909-911). -/
def titleKeywordTokens (title : List Char) : List (List Char) :=
  ((pdfTokenize title).filter (fun t => decide (2 < t.length))).take 5

/-- The keyword set before the frequency signal: user keywords united with
the capped title tokens (lines 910-911). -/
def baseBeforeFreq (userRaw title : List Char) : List (List Char) :=
  (titleKeywordTokens title).foldl insertNew ((userKeywords userRaw).foldl insertNew [])

/-- The keyword set after adding the top-10 frequent tokens (lines 920-923). -/
def baseAfterFreq (userRaw title text : List Char) : List (List Char) :=
  (((freqList (pdfFreqTokens text)).mergeSort countGE).take 10).foldl
    (fun acc p => insertNew acc p.1) (baseBeforeFreq userRaw title)

/-- The final keyword list (lines 925-926): empty strings dropped, capped
at 25. -/
def deriveKeywords (userRaw title text : List Char) : List (List Char) :=
  ((baseAfterFreq userRaw title text).filter (fun k => !k.isEmpty)).take 25

/-- The keyword gate of the upload route (lines 927-928): empty derived
keywords fail the ingestion with a 400 error. -/
def keywordsOrFail (userRaw title text : List Char) :
    Except Unit (List (List Char)) :=
  if (deriveKeywords userRaw title text).isEmpty then .error ()
  else .ok (deriveKeywords userRaw title text)

/-- The count a key holds in an association list (0 when absent). -/
def valueOf (t : List Char) : List (List Char × Nat) → Nat
  | [] => 0
  | (k, c) :: rest => if k = t then c else valueOf t rest

theorem valueOf_bump (t x : List Char) :
    ∀ l, valueOf x (bump l t) = valueOf x l + (if t = x then 1 else 0)
  | [] => by
    by_cases h : t = x
    · simp [bump, valueOf, h]
    · simp [bump, valueOf, h, fun hh => h hh]
  | (k, c) :: rest => by
    by_cases hkt : k = t
    · subst hkt
      rw [bump, if_pos rfl]
      by_cases hkx : k = x
      · subst hkx
        simp [valueOf]
      · simp [valueOf, hkx]
    · rw [bump, if_neg hkt]
      by_cases hkx : k = x
      · subst hkx
        have htx : t ≠ k := fun h => hkt h.symm
        simp [valueOf, htx]
      · simp only [valueOf, if_neg hkx]
        exact valueOf_bump t x rest


theorem valueOf_foldl_bump (x : List Char) :
    ∀ (ts : List (List Char)) (l : List (List Char × Nat)),
      valueOf x (ts.foldl bump l) = valueOf x l + ts.count x
  | [], l => by simp
  | t :: ts, l => by
    rw [List.foldl_cons, valueOf_foldl_bump x ts (bump l t), valueOf_bump t x l,
      List.count_cons]
    by_cases h : t = x
    · simp [h]
      omega
    · have hxt : ¬(x = t) := fun hh => h hh.symm
      simp [h, hxt]

theorem map_fst_bump (t : List Char) :
    ∀ l, (bump l t).map Prod.fst = insertNew (l.map Prod.fst) t
  | [] => by simp [bump, insertNew]
  | (k, c) :: rest => by
    by_cases hkt : k = t
    · subst hkt
      rw [bump, if_pos rfl]
      simp [insertNew]
    · rw [bump, if_neg hkt]
      simp only [List.map_cons, map_fst_bump t rest, insertNew]
      by_cases hm : t ∈ rest.map Prod.fst
      · rw [if_pos hm, if_pos (by simp [hm])]
      · have hnk : ¬ t ∈ (k :: rest.map Prod.fst) := by
          simp only [List.mem_cons]
          rintro (rfl | hc)
          · exact hkt rfl
          · exact hm hc
        rw [if_neg hm, if_neg hnk]
        simp

theorem map_fst_foldl_bump :
    ∀ (ts : List (List Char)) (l : List (List Char × Nat)),
      (ts.foldl bump l).map Prod.fst = ts.foldl insertNew (l.map Prod.fst)
  | [], _ => rfl
  | t :: ts, l => by
    rw [List.foldl_cons, List.foldl_cons, map_fst_foldl_bump ts (bump l t),
      map_fst_bump t l]

/-- The keys of the frequency dict, in order, are the tokens in
first-encountered order. -/
theorem freqList_keys (ts : List (List Char)) :
    (freqList ts).map Prod.fst = firstSeen ts :=
  map_fst_foldl_bump ts []

theorem insertNew_nodup (l : List (List Char)) (x : List Char) (h : l.Nodup) :
    (insertNew l x).Nodup := by
  unfold insertNew
  by_cases hm : x ∈ l
  · rw [if_pos hm]
    exact h
  · rw [if_neg hm]
    rw [List.nodup_append]
    refine ⟨h, List.nodup_singleton x, ?_⟩
    intro a ha hax
    rw [List.mem_singleton] at hax
    subst hax
    exact hm ha

theorem foldl_insertNew_nodup :
    ∀ (ts : List (List Char)) (l : List (List Char)), l.Nodup →
      (ts.foldl insertNew l).Nodup
  | [], _, h => h
  | t :: ts, l, h => by
    rw [List.foldl_cons]
    exact foldl_insertNew_nodup ts (insertNew l t) (insertNew_nodup l t h)

theorem firstSeen_nodup (ts : List (List Char)) : (firstSeen ts).Nodup :=
  foldl_insertNew_nodup ts [] List.nodup_nil

theorem mem_insertNew (l : List (List Char)) (x y : List Char) :
    y ∈ insertNew l x ↔ y ∈ l ∨ y = x := by
  unfold insertNew
  by_cases hm : x ∈ l
  · rw [if_pos hm]
    constructor
    · exact Or.inl
    · rintro (h | rfl)
      · exact h
      · exact hm
  · rw [if_neg hm]
    simp

theorem mem_foldl_insertNew :
    ∀ (ts : List (List Char)) (l : List (List Char)) (y : List Char),
      y ∈ ts.foldl insertNew l ↔ y ∈ l ∨ y ∈ ts
  | [], l, y => by simp
  | t :: ts, l, y => by
    rw [List.foldl_cons, mem_foldl_insertNew ts (insertNew l t) y, mem_insertNew]
    constructor
    · rintro ((h | rfl) | h)
      · exact Or.inl h
      · exact Or.inr (List.mem_cons_self _ _)
      · exact Or.inr (List.mem_cons_of_mem _ h)
    · rintro (h | h)
      · exact Or.inl (Or.inl h)
      · rcases List.mem_cons.mp h with rfl | h
        · exact Or.inl (Or.inr rfl)
        · exact Or.inr h

theorem foldl_insertNew_fst :
    ∀ (ps : List (List Char × Nat)) (l : List (List Char)),
      ps.foldl (fun acc p => insertNew acc p.1) l = (ps.map Prod.fst).foldl insertNew l
  | [], _ => rfl
  | p :: ps, l => by
    rw [List.foldl_cons, List.map_cons, List.foldl_cons, foldl_insertNew_fst ps]

theorem valueOf_eq_of_mem :
    ∀ (l : List (List Char × Nat)), (l.map Prod.fst).Nodup →
      ∀ (t : List Char) (c : Nat), (t, c) ∈ l → valueOf t l = c
  | [], _, t, c, h => by simp at h
  | (k, v) :: rest, hnd, t, c, h => by
    simp only [List.map_cons, List.nodup_cons] at hnd
    rcases List.mem_cons.mp h with heq | hmem
    · rw [Prod.mk.injEq] at heq
      obtain ⟨rfl, rfl⟩ := heq
      simp [valueOf]
    · have hkt : k ≠ t := by
        intro hkt
        subst hkt
        exact hnd.1 (List.mem_map_of_mem Prod.fst hmem)
      rw [valueOf, if_neg hkt]
      exact valueOf_eq_of_mem rest hnd.2 t c hmem

/-- A pair in the frequency dict records a token of the scanned stream with
its true occurrence count. -/
theorem mem_freqList (ts : List (List Char)) (t : List Char) (c : Nat)
    (h : (t, c) ∈ freqList ts) : t ∈ ts ∧ c = ts.count t := by
  have hnd : ((freqList ts).map Prod.fst).Nodup := by
    rw [freqList_keys]
    exact firstSeen_nodup ts
  have hv := valueOf_eq_of_mem _ hnd t c h
  have hval := valueOf_foldl_bump t ts []
  constructor
  · have ht : t ∈ (freqList ts).map Prod.fst := List.mem_map_of_mem Prod.fst h
    rw [freqList_keys] at ht
    rcases (mem_foldl_insertNew ts [] t).mp ht with h0 | h0
    · simp at h0
    · exact h0
  · rw [← hv]
    simpa [valueOf] using hval

theorem countGE_trans : ∀ a b c : List Char × Nat,
    countGE a b → countGE b c → countGE a c := by
  intro a b c h1 h2
  simp only [countGE, decide_eq_true_eq] at *
  omega

theorem countGE_total : ∀ a b : List Char × Nat, countGE a b || countGE b a := by
  intro a b
  simp only [countGE, Bool.or_eq_true, decide_eq_true_eq]
  omega

/-- Two distinct elements of a list appear in one of the two orders as a
two-element sublist. -/
theorem pair_sublist_of_mem {α : Type} :
    ∀ (l : List α) (a b : α), a ∈ l → b ∈ l → a ≠ b →
      [a, b].Sublist l ∨ [b, a].Sublist l
  | [], a, _, ha, _, _ => by simp at ha
  | x :: rest, a, b, ha, hb, hne => by
    rcases List.mem_cons.mp ha with rfl | ha2
    · have hbr : b ∈ rest := by
        rcases List.mem_cons.mp hb with rfl | h
        · exact absurd rfl hne
        · exact h
      exact Or.inl (List.Sublist.cons₂ a (List.singleton_sublist.mpr hbr))
    · rcases List.mem_cons.mp hb with rfl | hb2
      · exact Or.inr (List.Sublist.cons₂ b (List.singleton_sublist.mpr ha2))
      · rcases pair_sublist_of_mem rest a b ha2 hb2 hne with h | h
        · exact Or.inl (h.cons x)
        · exact Or.inr (h.cons x)


/-- C8: in the upload route's keyword derivation, the frequency-derived
additions to the keyword set are exactly the tokens of the first ten
entries of the stable count-descending sort of the frequency dict: each
entry carries a token of the scanned text with its true occurrence
count; every selected count is at least every rejected count; a tie
between a selected and a rejected entry is resolved in favour of the
token first encountered in the frequency scan; the final deduplicated
keyword list is capped at 25 entries; and an empty final list fails the
ingestion. -/
theorem pdf_keyword_derivation (userRaw title text : List Char) :
    (∀ p ∈ ((freqList (pdfFreqTokens text)).mergeSort countGE).take 10,
      p.1 ∈ pdfFreqTokens text ∧ p.2 = (pdfFreqTokens text).count p.1) ∧
    (∀ p ∈ ((freqList (pdfFreqTokens text)).mergeSort countGE).take 10,
      ∀ q ∈ ((freqList (pdfFreqTokens text)).mergeSort countGE).drop 10,
        q.2 ≤ p.2) ∧
    (∀ p ∈ ((freqList (pdfFreqTokens text)).mergeSort countGE).take 10,
      ∀ q ∈ ((freqList (pdfFreqTokens text)).mergeSort countGE).drop 10,
        p.2 = q.2 → [p.1, q.1].Sublist (firstSeen (pdfFreqTokens text))) ∧
    (∀ k, k ∈ baseAfterFreq userRaw title text ↔
      (k ∈ baseBeforeFreq userRaw title ∨
        k ∈ (((freqList (pdfFreqTokens text)).mergeSort countGE).take 10).map
          Prod.fst)) ∧
    (deriveKeywords userRaw title text).length ≤ 25 ∧
    (deriveKeywords userRaw title text = [] →
      keywordsOrFail userRaw title text = Except.error ()) := by
  set ts := pdfFreqTokens text with hts
  set sorted := (freqList ts).mergeSort countGE with hsortdef
  have hnd_keys : ((freqList ts).map Prod.fst).Nodup := by
    rw [freqList_keys]
    exact firstSeen_nodup ts
  have hnd_fl : (freqList ts).Nodup := List.Nodup.of_map _ hnd_keys
  have hperm : sorted.Perm (freqList ts) := List.mergeSort_perm _ _
  have hnd_sorted : sorted.Nodup := hperm.symm.nodup hnd_fl
  have hsplit : sorted.take 10 ++ sorted.drop 10 = sorted :=
    List.take_append_drop 10 sorted
  have hdisj : ∀ x, x ∈ sorted.take 10 → x ∈ sorted.drop 10 → False := by
    intro x h1 h2
    have hnd2 : (sorted.take 10 ++ sorted.drop 10).Nodup := by
      rw [hsplit]
      exact hnd_sorted
    exact (List.disjoint_of_nodup_append hnd2) h1 h2
  have hmem_fl : ∀ p : List Char × Nat,
      p ∈ sorted.take 10 ∨ p ∈ sorted.drop 10 → p ∈ freqList ts := by
    intro p hp
    have hps : p ∈ sorted := by
      rcases hp with h | h
      · exact List.mem_of_mem_take h
      · exact List.mem_of_mem_drop h
    exact hperm.mem_iff.mp hps
  refine ⟨?_, ?_, ?_, ?_, ?_, ?_⟩
  · intro p hp
    exact mem_freqList ts p.1 p.2 (hmem_fl p (Or.inl hp))
  · intro p hp q hq
    have hpw := List.sorted_mergeSort countGE_trans countGE_total (freqList ts)
    rw [← hsortdef, ← hsplit] at hpw
    have h3 := (List.pairwise_append.mp hpw).2.2 p hp q hq
    simpa [countGE] using h3
  · intro p hp q hq htie
    have hpne : p ≠ q := fun h => hdisj p hp (h ▸ hq)
    have hpfl : p ∈ freqList ts := hmem_fl p (Or.inl hp)
    have hqfl : q ∈ freqList ts := hmem_fl q (Or.inr hq)
    rcases pair_sublist_of_mem (freqList ts) p q hpfl hqfl hpne with hgood | hbad
    · have hmapped := hgood.map Prod.fst
      rw [freqList_keys] at hmapped
      simpa using hmapped
    · exfalso
      have hle : countGE q p := by
        simp only [countGE, decide_eq_true_eq]
        omega
      have hbad2 := List.pair_sublist_mergeSort countGE_trans countGE_total hle hbad
      rw [← hsortdef, ← hsplit] at hbad2
      obtain ⟨l₁, l₂, hqp, h1, h2⟩ := List.sublist_append_iff.mp hbad2
      cases l₁ with
      | nil =>
        rw [List.nil_append] at hqp
        rw [← hqp] at h2
        exact hdisj p hp (h2.subset (by simp))
      | cons x l₁x =>
        rw [List.cons_append] at hqp
        injection hqp with hx hrest
        subst hx
        exact hdisj q (h1.subset (by simp)) hq
  · intro k
    rw [baseAfterFreq, foldl_insertNew_fst, mem_foldl_insertNew]
  · exact List.length_take_le 25 _
  · intro h
    rw [keywordsOrFail, if_pos (by simp [h])]


/-- Eleven distinct three-letter tokens, each occurring once, for the C8
witness: the stable sort keeps scan order, the first ten are selected
and `"kkk"` is rejected on a tie. -/
def wText : List Char := ("aaa bbb ccc ddd eee fff ggg hhh iii jjj kkk").data

unseal List.merge List.mergeSort in
/-- Witness for C8 at `wText` (and, for the failure conjunct, at the empty
document). -/
theorem pdf_keyword_derivation_witness :
    (("jjj").data ∈ pdfFreqTokens wText ∧
      1 = (pdfFreqTokens wText).count ("jjj").data) ∧
    (1 : Nat) ≤ 1 ∧
    [("jjj").data, ("kkk").data].Sublist (firstSeen (pdfFreqTokens wText)) ∧
    (("aaa").data ∈ baseAfterFreq [] [] wText ↔
      (("aaa").data ∈ baseBeforeFreq [] [] ∨
        ("aaa").data ∈ (((freqList (pdfFreqTokens wText)).mergeSort countGE).take 10).map
          Prod.fst)) ∧
    (deriveKeywords [] [] wText).length ≤ 25 ∧
    keywordsOrFail [] [] [] = Except.error () :=
  ⟨(pdf_keyword_derivation [] [] wText).1 ((("jjj").data, 1)) (by decide),
   (pdf_keyword_derivation [] [] wText).2.1 ((("jjj").data, 1)) (by decide)
     ((("kkk").data, 1)) (by decide),
   (pdf_keyword_derivation [] [] wText).2.2.1 ((("jjj").data, 1)) (by decide)
     ((("kkk").data, 1)) (by decide) rfl,
   (pdf_keyword_derivation [] [] wText).2.2.2.1 ("aaa").data,
   (pdf_keyword_derivation [] [] wText).2.2.2.2.1,
   (pdf_keyword_derivation [] [] []).2.2.2.2.2 (by decide)⟩

end CollegeBot
